import Mathlib

/-!
Verification of the subtitle-generation core of the vosk-stt service.

The Python sources are embedded shallowly:
* floats become `ℚ` (all arithmetic in the verified paths is exact),
* word dicts `{word, start, end}` with possibly missing keys become
  structures of `Option` fields, with the source's `dict.get` defaults
  applied at each use site exactly as in the code,
* the segmentation loop of `SubtitleGenerator.segment_into_lines`
  becomes a structurally recursive pass (`segRun`) threading the raw
  previous list element (Python's `words[i-1]`) and the loop state.
-/

attribute [local semireducible] Rat.add Rat.sub Rat.mul Rat.inv

/-- Python's `str.strip()` on the whitespace characters `Char.isWhitespace`
covers, written over the character list so that it evaluates by kernel
reduction. -/
def pyStrip (s : String) : String :=
  ⟨((s.data.dropWhile Char.isWhitespace).reverse.dropWhile Char.isWhitespace).reverse⟩

/-- A word dict from the recognizer: `{word, start, end}`, any key may be
missing (`subtitle_generator.py`, `segment_into_lines` reads each with
`.get`). -/
structure WordData where
  word : Option String
  start : Option ℚ
  end_ : Option ℚ
deriving DecidableEq, Repr

/-- A subtitle line dict `{index, start, end, text}`.  The buffer of word
strings that the source joins with `' '.join(current_line)` is kept as the
field `words`; the `text` value of the dict is `Line.text`. -/
structure Line where
  index : ℕ
  start : ℚ
  end_ : ℚ
  words : List String
deriving DecidableEq, Repr

/-- `' '.join(current_line)` — the `text` entry of an emitted line dict. -/
def Line.text (l : Line) : String :=
  String.intercalate " " l.words

/-- `SubtitleGenerator.__init__` configuration fields. -/
structure SubtitleGenerator where
  words_per_line : ℕ
  min_line_duration : ℚ
  max_line_duration : ℚ
  pause_threshold : ℚ
deriving DecidableEq, Repr

/-- The generator built with the source defaults
`(8, 1.5, 7.0, 0.7)` (also the values in `config.py`). -/
def cfg0 : SubtitleGenerator :=
  ⟨8, 3/2, 7, 7/10⟩

/-- Loop state of `segment_into_lines`: the emitted `lines`, the open
buffer `current_line`, and `line_start`.  The source initializes
`line_start = None` and only ever reads it after an assignment (always
under `current_line` non-empty, or as the fallback of a `.get` default);
the embedding initializes it to `0`, which is never observable. -/
structure SegState where
  lines : List Line
  current : List String
  line_start : ℚ
deriving DecidableEq, Repr

/-- `word_data.get('word', '')`. -/
def wordText (wd : WordData) : String :=
  wd.word.getD ""

/-- `not word.strip()` — the skip test for blank/whitespace-only words. -/
def isBlankWord (wd : WordData) : Bool :=
  pyStrip (wordText wd) = ""

/-- `prev_word and prev_word[-1] in '.!?'` (line 95 of the source): Python's
`w[-1]` is the last character, and the `and` short-circuit makes the test
`false` on the empty string — exactly the `none` branch of `getLast?`. -/
def endsBreakPunct (w : String) : Bool :=
  match w.data.getLast? with
  | some c => c = '.' || c = '!' || c = '?'
  | none => false

/-- The pause condition (source item 1): under `if i > 0`, whether
`start - words[i-1].get('end', 0)` reaches the threshold. -/
def pauseBreakB (g : SubtitleGenerator) (prev : Option WordData) (start : ℚ) : Bool :=
  match prev with
  | some p => decide (g.pause_threshold ≤ start - p.end_.getD 0)
  | none => false

/-- The punctuation condition (source item 4) over the open buffer:
`prev_word = current_line[-1] if current_line else ''` then the
short-circuited membership test. -/
def punctBreakB (current : List String) : Bool :=
  match current.getLast? with
  | some pw => endsBreakPunct pw
  | none => false

/-- `should_break`: the four break conditions of the source, in order. -/
def shouldBreakB (g : SubtitleGenerator) (prev : Option WordData)
    (current : List String) (line_start start wend : ℚ) : Bool :=
  pauseBreakB g prev start
    || decide (g.words_per_line ≤ current.length)
    || decide (g.max_line_duration ≤ wend - line_start)
    || punctBreakB current

/-- `words[i-1].get('end', line_start + 1)` (and the same read of
`words[-1]` at the final flush), with the source's fallback for the
unreachable no-previous-element case. -/
def prevEndD (prev : Option WordData) (fallback : ℚ) : ℚ :=
  match prev with
  | some p => p.end_.getD fallback
  | none => fallback

/-- One iteration of the `for i, word_data in enumerate(words)` loop of
`segment_into_lines`.  `prev` is the raw previous element `words[i-1]`
(`none` exactly when `i = 0`, where the source's `if i > 0` guard skips
the pause check). -/
def segStep (g : SubtitleGenerator) (prev : Option WordData) (wd : WordData)
    (st : SegState) : SegState :=
  let word := wd.word.getD ""
  let start := wd.start.getD 0
  let wend := wd.end_.getD 0
  if pyStrip word = "" then
    st
  else if st.current.isEmpty then
    { st with current := [word], line_start := start }
  else if shouldBreakB g prev st.current st.line_start start wend
      && !st.current.isEmpty then
    { lines := st.lines
        ++ [⟨st.lines.length + 1, st.line_start, prevEndD prev (st.line_start + 1), st.current⟩],
      current := [word],
      line_start := start }
  else
    { st with current := st.current ++ [word] }

/-- The whole loop: runs `segStep` over the list, threading the raw
previous element; returns the final state and the final previous element
(which is `words[-1]` when the input is non-empty). -/
def segRun (g : SubtitleGenerator) :
    List WordData → Option WordData → SegState → SegState × Option WordData
  | [], prev, st => (st, prev)
  | wd :: rest, prev, st => segRun g rest (some wd) (segStep g prev wd st)

/-- `SubtitleGenerator.segment_into_lines`. -/
def segment_into_lines (g : SubtitleGenerator) (words : List WordData) : List Line :=
  match words with
  | [] => []
  | _ :: _ =>
    let r := segRun g words none ⟨[], [], 0⟩
    let st := r.1
    if st.current.isEmpty then
      st.lines
    else
      st.lines
        ++ [⟨st.lines.length + 1, st.line_start, prevEndD r.2 (st.line_start + 1), st.current⟩]

/-- The texts of the non-blank input words, in order — the words the
source actually distributes over lines. -/
def nonBlankWords (ws : List WordData) : List String :=
  (ws.filter (fun wd => !isBlankWord wd)).map wordText

/-- Concatenation of the word buffers of a list of lines. -/
def linesWords : List Line → List String
  | [] => []
  | l :: ls => l.words ++ linesWords ls

/-- Python's `int(...)` on a number: truncation toward zero. -/
def pyTrunc (q : ℚ) : ℤ :=
  if q < 0 then ⌈q⌉ else ⌊q⌋

/-- Rounding to the nearest integer with ties to even — the rounding
`datetime.timedelta` applies to fractional microseconds. -/
def roundHalfEven (q : ℚ) : ℤ :=
  let f := ⌊q⌋
  let r := q - f
  if r < 1/2 then f
  else if 1/2 < r then f + 1
  else if f % 2 = 0 then f else f + 1

/-- The value of `timedelta(seconds=s).total_seconds()`: the timedelta
stores whole microseconds (fractional ones rounded half-to-even), and
`total_seconds` divides them back out. -/
def timedeltaTotalSeconds (s : ℚ) : ℚ :=
  (roundHalfEven (s * 1000000) : ℚ) / 1000000

/-- Left zero-padding of a digit string to a minimum width. -/
def zfill (w : ℕ) (s : String) : String :=
  if s.length < w then ⟨List.replicate (w - s.length) '0'⟩ ++ s else s

/-- Python's format spec `0wd` applied to an integer: minimum width `w`,
zero-padded, the sign written before the zeros. -/
def pyFmtZero (w : ℕ) (n : ℤ) : String :=
  if n < 0 then "-" ++ zfill (w - 1) (toString n.natAbs)
  else zfill w (toString n.natAbs)

/-- `SubtitleGenerator.format_timestamp_srt`: `HH:MM:SS,mmm`.  Python's
`//` and `%` on ints are floor division and floor modulus (`Int.fdiv`,
`Int.fmod`); `int(...)` truncates toward zero (`pyTrunc`). -/
def format_timestamp_srt (seconds : ℚ) : String :=
  let total_seconds := pyTrunc (timedeltaTotalSeconds seconds)
  let hours := Int.fdiv total_seconds 3600
  let minutes := Int.fdiv (Int.fmod total_seconds 3600) 60
  let secs := Int.fmod total_seconds 60
  let millis := pyTrunc ((seconds - (pyTrunc seconds : ℚ)) * 1000)
  pyFmtZero 2 hours ++ ":" ++ pyFmtZero 2 minutes ++ ":" ++ pyFmtZero 2 secs
    ++ "," ++ pyFmtZero 3 millis

/-- `SubtitleGenerator.format_timestamp_vtt`: `HH:MM:SS.mmm` — the same
body as the SRT variant with a period before the milliseconds. -/
def format_timestamp_vtt (seconds : ℚ) : String :=
  let total_seconds := pyTrunc (timedeltaTotalSeconds seconds)
  let hours := Int.fdiv total_seconds 3600
  let minutes := Int.fdiv (Int.fmod total_seconds 3600) 60
  let secs := Int.fmod total_seconds 60
  let millis := pyTrunc ((seconds - (pyTrunc seconds : ℚ)) * 1000)
  pyFmtZero 2 hours ++ ":" ++ pyFmtZero 2 minutes ++ ":" ++ pyFmtZero 2 secs
    ++ "." ++ pyFmtZero 3 millis

/-- The text `generate_srt` writes for one line: index, timestamp range,
text, blank line. -/
def srtBlock (l : Line) : String :=
  toString l.index ++ "\n"
    ++ format_timestamp_srt l.start ++ " --> " ++ format_timestamp_srt l.end_ ++ "\n"
    ++ Line.text l ++ "\n\n"

/-- The whole SRT file content `generate_srt` writes. -/
def srtContent (lines : List Line) : String :=
  String.join (lines.map srtBlock)

/-- The text `generate_vtt` writes for one line: cue identifier, timestamp
range, text, blank line. -/
def vttBlock (l : Line) : String :=
  "cue-" ++ toString l.index ++ "\n"
    ++ format_timestamp_vtt l.start ++ " --> " ++ format_timestamp_vtt l.end_ ++ "\n"
    ++ Line.text l ++ "\n\n"

/-- The whole WebVTT file content `generate_vtt` writes: header then cues. -/
def vttContent (lines : List Line) : String :=
  "WEBVTT\n\n" ++ String.join (lines.map vttBlock)

/-- A metadata value of the JSON document (number, string or null —
the shapes the callers pass). -/
inductive MVal where
  | num : ℚ → MVal
  | str : String → MVal
  | null : MVal
deriving DecidableEq, Repr

/-- The dict `generate_json` returns: the line list and the metadata
mapping, the latter as an association list in insertion order. -/
structure JsonDoc where
  lines : List Line
  metadata : List (String × MVal)
deriving DecidableEq, Repr

/-- A Python dict literal `{**base, **extra}` where `base` is given by
explicit entries: keys of `base` keep their position, a key also in
`extra` takes the value of `extra`, and new keys of `extra` follow in
their own order. -/
def pyDictMerge (base extra : List (String × MVal)) : List (String × MVal) :=
  base.map (fun kv => (kv.1, (List.lookup kv.1 extra).getD kv.2))
    ++ extra.filter (fun kv => (List.lookup kv.1 base).isNone)

/-- `total_duration` of `generate_json`: last line's end, else last word's
end, else 0. -/
def totalDuration (lines : List Line) (words : List WordData) : ℚ :=
  match lines.getLast? with
  | some l => l.end_
  | none =>
    match words.getLast? with
    | some w => w.end_.getD 0
    | none => 0

/-- The three computed metadata entries of `generate_json`, in the order
the dict literal writes them. -/
def computedMetadata (lines : List Line) (words : List WordData) : List (String × MVal) :=
  [("total_lines", MVal.num lines.length),
   ("total_words", MVal.num words.length),
   ("duration", MVal.num (totalDuration lines words))]

/-- `SubtitleGenerator.generate_json`: the Spotify-style JSON structure;
the caller metadata (`metadata or {}`) is splatted after the computed
entries, so it overrides them on key collision. -/
def generate_json (lines : List Line) (words : List WordData)
    (metadata : Option (List (String × MVal))) : JsonDoc :=
  { lines := lines,
    metadata := pyDictMerge (computedMetadata lines words) (metadata.getD []) }

/-- What one emitted file holds: caption text, or the JSON document
(serialized by `json.dump`, whose byte-level encoding no claim reads). -/
inductive FileContent where
  | text : String → FileContent
  | json : JsonDoc → FileContent
deriving DecidableEq, Repr

/-- The dict `generate_all` returns, together with the log of file writes
it performs (path and content of each file created). -/
structure GenAllResult where
  success : Bool
  error : Option String
  srt_path : Option String
  vtt_path : Option String
  json_path : Option String
  text_json : Option JsonDoc
  line_count : Option ℕ
  writes : List (String × FileContent)
deriving DecidableEq, Repr

/-- `os.path.join(dir, name)` for a relative name: separator concatenation. -/
def pathJoin (dir name : String) : String :=
  dir ++ "/" ++ name

/-- `SubtitleGenerator.generate_all`: segment, fail with no writes when no
line was produced, otherwise write the `.srt`, `.vtt` and `.json` files
and return their paths with the JSON data. -/
def generate_all (g : SubtitleGenerator) (words : List WordData)
    (output_dir filename_base : String)
    (metadata : Option (List (String × MVal))) : GenAllResult :=
  let lines := segment_into_lines g words
  if lines.isEmpty then
    { success := false,
      error := some "No lines generated from transcription",
      srt_path := none, vtt_path := none, json_path := none,
      text_json := none, line_count := none, writes := [] }
  else
    let srt_path := pathJoin output_dir (filename_base ++ ".srt")
    let vtt_path := pathJoin output_dir (filename_base ++ ".vtt")
    let json_path := pathJoin output_dir (filename_base ++ ".json")
    let json_data := generate_json lines words metadata
    { success := true,
      error := none,
      srt_path := some srt_path, vtt_path := some vtt_path,
      json_path := some json_path,
      text_json := some json_data,
      line_count := some (segment_into_lines g words).length,
      writes := [(srt_path, FileContent.text (srtContent lines)),
                 (vtt_path, FileContent.text (vttContent lines)),
                 (json_path, FileContent.json json_data)] }

/-- The dict `AudioProcessor.convert_to_wav` returns, reduced to the
fields the route handlers read. -/
structure ConvertResult where
  success : Bool
  error : Option String
  duration : Option ℚ
deriving DecidableEq, Repr

/-- The dict `VoskTranscriber.transcribe` returns, reduced to the fields
the route handlers read. -/
structure TranscribeResult where
  success : Bool
  error : Option String
  words : List WordData
  model : Option String
deriving DecidableEq, Repr

/-- The observable outcome of one transcription job as the route handlers
of `app.py` drive it: the final status of the subtitle record, its error
message, the paths passed to `audio_processor.cleanup` (files removed),
and whether the recognition and segmentation stages were reached. -/
structure FlowOutcome where
  status : String
  error_message : Option String
  cleaned : List String
  recognized : Bool
  segmented : Bool
  httpOk : Bool
deriving DecidableEq, Repr

/-- The stage sequence of `transcribe_upload` (app.py lines 259-344) from
the point the upload is saved and the records committed: convert, then
transcribe, then generate subtitles, each failure exit mirrored exactly —
in this route no failure exit calls `audio_processor.cleanup`; only the
success path cleans `upload_path` and `wav_path`. -/
def transcribe_upload_flow (g : SubtitleGenerator)
    (conv : ConvertResult) (tr : TranscribeResult)
    (upload_path wav_path output_dir subtitle_id : String)
    (metadata : Option (List (String × MVal))) : FlowOutcome :=
  if conv.success = false then
    { status := "failed",
      error_message := some (conv.error.getD "Conversion failed"),
      cleaned := [], recognized := false, segmented := false, httpOk := false }
  else if tr.success = false then
    { status := "failed",
      error_message := some (tr.error.getD "Transcription failed"),
      cleaned := [], recognized := true, segmented := false, httpOk := false }
  else
    let genr := generate_all g tr.words output_dir subtitle_id metadata
    if genr.success = false then
      { status := "failed",
        error_message := some (genr.error.getD "Subtitle generation failed"),
        cleaned := [], recognized := true, segmented := true, httpOk := false }
    else
      { status := "completed", error_message := none,
        cleaned := [upload_path, wav_path],
        recognized := true, segmented := true, httpOk := true }

/-- The same stage sequence as run by `transcribe_from_url` (app.py lines
436-524): identical staging, but every failure exit also calls
`audio_processor.cleanup` — with `upload_path` alone on conversion
failure (line 444), and with both paths on later failures. -/
def transcribe_from_url_flow (g : SubtitleGenerator)
    (conv : ConvertResult) (tr : TranscribeResult)
    (upload_path wav_path output_dir subtitle_id : String)
    (metadata : Option (List (String × MVal))) : FlowOutcome :=
  if conv.success = false then
    { status := "failed",
      error_message := some (conv.error.getD "Conversion failed"),
      cleaned := [upload_path], recognized := false, segmented := false, httpOk := false }
  else if tr.success = false then
    { status := "failed",
      error_message := some (tr.error.getD "Transcription failed"),
      cleaned := [upload_path, wav_path], recognized := true, segmented := false,
      httpOk := false }
  else
    let genr := generate_all g tr.words output_dir subtitle_id metadata
    if genr.success = false then
      { status := "failed",
        error_message := genr.error,
        cleaned := [upload_path, wav_path], recognized := true, segmented := true,
        httpOk := false }
    else
      { status := "completed", error_message := none,
        cleaned := [upload_path, wav_path],
        recognized := true, segmented := true, httpOk := true }

/-- A checked copy of `segStep` in which every operation of the source
that can raise is made to fail explicitly instead of being total: the
last-character subscript `prev_word[-1]` (an `IndexError` on an empty
string) returns `none` unless Python's short-circuit guard
`prev_word and ...` has already answered.  Everything else follows
`segStep` verbatim. -/
def segStepChecked (g : SubtitleGenerator) (prev : Option WordData) (wd : WordData)
    (st : SegState) : Option SegState :=
  let word := wd.word.getD ""
  let start := wd.start.getD 0
  let wend := wd.end_.getD 0
  if pyStrip word = "" then
    some st
  else if st.current.isEmpty then
    some { st with current := [word], line_start := start }
  else
    let punctBreakO : Option Bool :=
      match st.current.getLast? with
      | some pw =>
        if pw = "" then some false
        else
          match pw.data.getLast? with
          | some c => some (c = '.' || c = '!' || c = '?')
          | none => none
      | none => some false
    match punctBreakO with
    | none => none
    | some punctBreak =>
      let should_break := pauseBreakB g prev start
        || decide (g.words_per_line ≤ st.current.length)
        || decide (g.max_line_duration ≤ wend - st.line_start)
        || punctBreak
      if should_break && !st.current.isEmpty then
        some { lines := st.lines
                 ++ [⟨st.lines.length + 1, st.line_start, prevEndD prev (st.line_start + 1),
                      st.current⟩],
               current := [word],
               line_start := start }
      else
        some { st with current := st.current ++ [word] }

/-- The checked loop: propagates a failure of any step. -/
def segRunChecked (g : SubtitleGenerator) :
    List WordData → Option WordData → SegState → Option (SegState × Option WordData)
  | [], prev, st => some (st, prev)
  | wd :: rest, prev, st =>
    match segStepChecked g prev wd st with
    | some st' => segRunChecked g rest (some wd) st'
    | none => none

/-- The checked `segment_into_lines`: the final `words[-1]` read (an
`IndexError` on an empty list, guarded in the source by `if words`)
fails explicitly when no word was seen. -/
def segment_into_lines_checked (g : SubtitleGenerator) (words : List WordData) :
    Option (List Line) :=
  match words with
  | [] => some []
  | _ :: _ =>
    match segRunChecked g words none ⟨[], [], 0⟩ with
    | none => none
    | some (st, prev) =>
      if st.current.isEmpty then
        some st.lines
      else
        match prev with
        | some p =>
          some (st.lines
            ++ [⟨st.lines.length + 1, st.line_start, prevEndD (some p) (st.line_start + 1),
                 st.current⟩])
        | none => none

/-- A word dict with all three keys present and a non-blank text — the
words of the spec's data model. -/
def goodWord (wd : WordData) : Bool :=
  !isBlankWord wd && wd.start.isSome && wd.end_.isSome

/-- The word dict with every missing key replaced by its claimed default:
text `''`, start `0`, end `0`. -/
def fillDefaults (wd : WordData) : WordData :=
  ⟨some (wd.word.getD ""), some (wd.start.getD 0), some (wd.end_.getD 0)⟩

/-- A line is one consecutive run of the input: its word texts are the
texts of a contiguous non-empty slice `mid` of the input, its start is
the first word of the slice's start value and its end the last word of
the slice's end value. -/
def lineChunk (ws : List WordData) (l : Line) : Prop :=
  ∃ pre mid post w1 wn,
    ws = pre ++ mid ++ post ∧
    mid.head? = some w1 ∧ mid.getLast? = some wn ∧
    l.words = mid.map wordText ∧
    l.start = w1.start.getD 0 ∧ l.end_ = wn.end_.getD 0

/-- The generator `⟨2, 1.5, 7.0, 0.7⟩` — `words_per_line = 2` with the
other defaults, as in the spec's two-word segmentation property. -/
def cfg2 : SubtitleGenerator :=
  ⟨2, 3/2, 7, 7/10⟩

/-- The spec's worked example: `see (0, 0.5)`, `you (0.6, 0.9)`,
`soon (2.0, 2.4)`. -/
def exSeeYouSoon : List WordData :=
  [⟨some "see", some 0, some (1/2)⟩,
   ⟨some "you", some (3/5), some (9/10)⟩,
   ⟨some "soon", some 2, some (12/5)⟩]

/-- A non-blank word, then a skipped blank word carrying its own `end`,
then a word after a long pause. -/
def exBlank : List WordData :=
  [⟨some "a", some 0, some 1⟩,
   ⟨some "", some 5, some 6⟩,
   ⟨some "b", some 10, some 11⟩]

/-- One single word lasting 100 seconds. -/
def exLong : List WordData :=
  [⟨some "a", some 0, some 100⟩]

/-- Two back-to-back words (gap 0) whose second word's end is far beyond
the maximum line duration. -/
def exDur : List WordData :=
  [⟨some "a", some 0, some 10⟩, ⟨some "b", some 10, some 20⟩]

/-- Three short words, no pauses, no punctuation, total span far below
the maximum duration. -/
def exGap3 : List WordData :=
  [⟨some "a", some 0, some (1/10)⟩,
   ⟨some "b", some (1/5), some (3/10)⟩,
   ⟨some "c", some (2/5), some (1/2)⟩]

/-- A word with no `end` key, then a word after a long pause. -/
def exMissing : List WordData :=
  [⟨some "a", some 0, none⟩, ⟨some "b", some 5, some 6⟩]

/-- Two well-formed words with a big gap between them. -/
def exTwo : List WordData :=
  [⟨some "hi", some 0, some 1⟩, ⟨some "there", some 5, some 6⟩]

/-- The buffer invariant of the loop: either the buffer is empty, or the
words consumed so far split as `pre ++ mid` where `mid` is the run the
open buffer holds — its texts are the buffer, the buffer's start time is
its first word's start. -/
def BufOk (done : List WordData) (st : SegState) : Prop :=
  st.current = [] ∨
  ∃ pre mid w1, done = pre ++ mid ∧ mid.head? = some w1 ∧
    st.current = mid.map wordText ∧ st.line_start = w1.start.getD 0

/-- The count/duration invariant of the loop: emitted lines respect the
word-count limit, and respect the duration limit as soon as they hold at
least two words; the open buffer respects the count limit, and once it
holds at least two words, the last consumed word's end stays within the
duration limit of the open line. -/
def C3Inv (g : SubtitleGenerator) (done : List WordData) (st : SegState) : Prop :=
  (∀ l ∈ st.lines, l.words.length ≤ g.words_per_line ∧
     (2 ≤ l.words.length → l.end_ - l.start < g.max_line_duration)) ∧
  st.current.length ≤ g.words_per_line ∧
  (2 ≤ st.current.length →
     ∃ wn e, done.getLast? = some wn ∧ wn.end_ = some e ∧
       e - st.line_start < g.max_line_duration)

/-- The two-word-chunking invariant: all closed lines hold exactly two
words; the buffer holds at most two; when the buffer is open, at least
one word was consumed and the buffer's start time is some input word's
start; every buffered string is the text of some input word. -/
def C5Inv (ws done : List WordData) (st : SegState) : Prop :=
  (∀ l ∈ st.lines, l.words.length = 2) ∧
  st.current.length ≤ 2 ∧
  (st.current ≠ [] → done ≠ [] ∧ ∃ w0 ∈ ws, st.line_start = w0.start.getD 0) ∧
  (∀ s ∈ st.current, ∃ w ∈ ws, s = wordText w)

/-! ### Helper lemmas about the segmentation loop -/

theorem linesWords_append (a b : List Line) :
    linesWords (a ++ b) = linesWords a ++ linesWords b := by
  induction a with
  | nil => rfl
  | cons l ls ih => simp [linesWords, ih]

theorem nonBlankWords_cons (wd : WordData) (ws : List WordData) :
    nonBlankWords (wd :: ws)
      = (if isBlankWord wd then [] else [wordText wd]) ++ nonBlankWords ws := by
  cases h : isBlankWord wd <;> simp [nonBlankWords, List.filter_cons, h]

theorem nonBlankWords_append (a b : List WordData) :
    nonBlankWords (a ++ b) = nonBlankWords a ++ nonBlankWords b := by
  simp [nonBlankWords, List.filter_append]


theorem segStep_of_blank (g : SubtitleGenerator) (prev : Option WordData) (wd : WordData)
    (st : SegState) (h : isBlankWord wd = true) :
    segStep g prev wd st = st := by
  have hb : pyStrip (wd.word.getD "") = "" := by
    simpa [isBlankWord, wordText] using h
  simp [segStep, hb]

theorem segStep_of_first (g : SubtitleGenerator) (prev : Option WordData) (wd : WordData)
    (st : SegState) (h : isBlankWord wd = false) (hc : st.current = []) :
    segStep g prev wd st
      = { st with current := [wordText wd], line_start := wd.start.getD 0 } := by
  have hb : ¬ pyStrip (wd.word.getD "") = "" := by
    simpa [isBlankWord, wordText] using h
  simp [segStep, hb, hc, wordText]

theorem segStep_of_break (g : SubtitleGenerator) (prev : Option WordData) (wd : WordData)
    (st : SegState) (h : isBlankWord wd = false) (hc : st.current ≠ [])
    (hsb : shouldBreakB g prev st.current st.line_start (wd.start.getD 0) (wd.end_.getD 0)
      = true) :
    segStep g prev wd st
      = { lines := st.lines
            ++ [⟨st.lines.length + 1, st.line_start, prevEndD prev (st.line_start + 1),
                 st.current⟩],
          current := [wordText wd],
          line_start := wd.start.getD 0 } := by
  have hb : ¬ pyStrip (wd.word.getD "") = "" := by
    simpa [isBlankWord, wordText] using h
  have hce : ¬ st.current.isEmpty = true := by
    simpa [List.isEmpty_iff] using hc
  simp [segStep, hb, hce, hsb, wordText]

theorem segStep_of_cont (g : SubtitleGenerator) (prev : Option WordData) (wd : WordData)
    (st : SegState) (h : isBlankWord wd = false) (hc : st.current ≠ [])
    (hsb : shouldBreakB g prev st.current st.line_start (wd.start.getD 0) (wd.end_.getD 0)
      = false) :
    segStep g prev wd st = { st with current := st.current ++ [wordText wd] } := by
  have hb : ¬ pyStrip (wd.word.getD "") = "" := by
    simpa [isBlankWord, wordText] using h
  have hce : ¬ st.current.isEmpty = true := by
    simpa [List.isEmpty_iff] using hc
  simp [segStep, hb, hce, hsb, wordText]

theorem segStep_flat (g : SubtitleGenerator) (prev : Option WordData) (wd : WordData)
    (st : SegState) :
    linesWords (segStep g prev wd st).lines ++ (segStep g prev wd st).current
      = (linesWords st.lines ++ st.current)
        ++ (if isBlankWord wd then [] else [wordText wd]) := by
  cases h : isBlankWord wd with
  | true => rw [segStep_of_blank g prev wd st h]; simp
  | false =>
    by_cases hc : st.current = []
    · rw [segStep_of_first g prev wd st h hc]; simp [hc]
    · cases hsb : shouldBreakB g prev st.current st.line_start (wd.start.getD 0)
        (wd.end_.getD 0) with
      | true =>
        rw [segStep_of_break g prev wd st h hc hsb]
        simp [linesWords_append, linesWords]
      | false =>
        rw [segStep_of_cont g prev wd st h hc hsb]
        simp

theorem segRun_flat (g : SubtitleGenerator) :
    ∀ (rest : List WordData) (prev : Option WordData) (st : SegState),
    linesWords (segRun g rest prev st).1.lines ++ (segRun g rest prev st).1.current
      = (linesWords st.lines ++ st.current) ++ nonBlankWords rest := by
  intro rest
  induction rest with
  | nil => intro prev st; simp [segRun, nonBlankWords]
  | cons wd rest ih =>
    intro prev st
    simp only [segRun]
    rw [ih, segStep_flat, nonBlankWords_cons]
    cases isBlankWord wd <;> simp

theorem segRun_snd (g : SubtitleGenerator) :
    ∀ (rest : List WordData) (prev : Option WordData) (st : SegState),
    (segRun g rest prev st).2 = rest.getLast?.or prev := by
  intro rest
  induction rest with
  | nil => intro prev st; simp [segRun]
  | cons wd rest ih =>
    intro prev st
    simp only [segRun]
    rw [ih]
    cases hr : rest.getLast? with
    | none =>
      have : rest = [] := by
        cases rest with
        | nil => rfl
        | cons a l => simp at hr
      simp [this, Option.or]
    | some w =>
      have : (wd :: rest).getLast? = some w := by
        cases rest with
        | nil => simp at hr
        | cons a l =>
          rw [List.getLast?_cons_cons, hr]
      simp [this, hr, Option.or]

theorem segment_flat (g : SubtitleGenerator) (ws : List WordData) :
    linesWords (segment_into_lines g ws) = nonBlankWords ws := by
  cases ws with
  | nil => rfl
  | cons w ws' =>
    have h := segRun_flat g (w :: ws') none ⟨[], [], 0⟩
    simp only [linesWords, List.nil_append] at h
    unfold segment_into_lines
    by_cases hc : (segRun g (w :: ws') none ⟨[], [], 0⟩).1.current.isEmpty = true
    · have hnil : (segRun g (w :: ws') none ⟨[], [], 0⟩).1.current = [] := by
        simpa [List.isEmpty_iff] using hc
      rw [if_pos hc]
      rw [hnil, List.append_nil] at h
      exact h
    · rw [if_neg hc, linesWords_append]
      simpa [linesWords] using h

theorem linesWords_length (ls : List Line) :
    (linesWords ls).length = (ls.map (fun l => l.words.length)).sum := by
  induction ls with
  | nil => rfl
  | cons l ls ih => simp [linesWords, ih]

/-- C1: the concatenation of the emitted lines' word lists is exactly the
list of non-blank input word texts, in the original order, and the total
word count across the emitted lines equals the number of non-blank input
words. -/
theorem segment_words_complete (g : SubtitleGenerator) (ws : List WordData) :
    linesWords (segment_into_lines g ws) = nonBlankWords ws ∧
    ((segment_into_lines g ws).map (fun l => l.words.length)).sum
      = (ws.filter (fun wd => !isBlankWord wd)).length := by
  constructor
  · exact segment_flat g ws
  · rw [← linesWords_length, segment_flat g ws]
    simp [nonBlankWords]

theorem lineChunk_mono (ws ext : List WordData) (l : Line) (h : lineChunk ws l) :
    lineChunk (ws ++ ext) l := by
  obtain ⟨pre, mid, post, w1, wn, hws, h1, h2, h3, h4, h5⟩ := h
  exact ⟨pre, mid, post ++ ext, w1, wn, by rw [hws]; simp, h1, h2, h3, h4, h5⟩

theorem getLast?_append_right {α : Type} (a b : List α) (h : b ≠ []) :
    (a ++ b).getLast? = b.getLast? := by
  induction a with
  | nil => rfl
  | cons x a ih =>
    cases ha : a ++ b with
    | nil => simp at ha; exact absurd ha.2 h
    | cons y l =>
      rw [List.cons_append, ha, List.getLast?_cons_cons, ← ha, ih]

theorem mem_of_getLast?_eq {α : Type} {l : List α} {a : α} (h : l.getLast? = some a) :
    a ∈ l := by
  induction l with
  | nil => simp at h
  | cons x l ih =>
    cases l with
    | nil => simp at h; simp [h]
    | cons y l' =>
      rw [List.getLast?_cons_cons] at h
      exact List.mem_cons_of_mem _ (ih h)

theorem goodWord_spec (wd : WordData) (h : goodWord wd = true) :
    isBlankWord wd = false ∧ wd.start.isSome = true ∧ wd.end_.isSome = true := by
  have h' := h
  simp only [goodWord, Bool.and_eq_true, Bool.not_eq_true'] at h'
  exact ⟨h'.1.1, h'.1.2, h'.2⟩

theorem segStep_chunk (g : SubtitleGenerator) (done : List WordData) (wd : WordData)
    (st : SegState)
    (hgw : goodWord wd = true)
    (hgd : ∀ w ∈ done, goodWord w = true)
    (hl : ∀ l ∈ st.lines, lineChunk done l)
    (hb : BufOk done st) :
    (∀ l ∈ (segStep g done.getLast? wd st).lines, lineChunk (done ++ [wd]) l) ∧
    BufOk (done ++ [wd]) (segStep g done.getLast? wd st) := by
  obtain ⟨hnb, hs, he⟩ := goodWord_spec wd hgw
  by_cases hc : st.current = []
  · rw [segStep_of_first _ _ _ _ hnb hc]
    refine ⟨fun l hlm => lineChunk_mono _ _ _ (hl l hlm), Or.inr ?_⟩
    exact ⟨done, [wd], wd, rfl, rfl, rfl, rfl⟩
  · rcases hb with hce | ⟨pre, mid, w1, hdone, hhead, hcur, hls⟩
    · exact absurd hce hc
    have hmidne : mid ≠ [] := by
      intro h0
      rw [h0] at hcur
      exact hc (by simpa using hcur)
    obtain ⟨wn, hwn⟩ : ∃ wn, mid.getLast? = some wn := by
      cases hm : mid.getLast? with
      | none => exact absurd (List.getLast?_eq_none_iff.mp hm) hmidne
      | some w => exact ⟨w, rfl⟩
    have hlastd : done.getLast? = some wn := by
      rw [hdone, getLast?_append_right _ _ hmidne, hwn]
    have hwnmem : wn ∈ done := by
      rw [hdone]
      exact List.mem_append_right _ (mem_of_getLast?_eq hwn)
    obtain ⟨-, -, hwne⟩ := goodWord_spec wn (hgd wn hwnmem)
    obtain ⟨e, hee⟩ := Option.isSome_iff_exists.mp hwne
    have hpe : prevEndD done.getLast? (st.line_start + 1) = wn.end_.getD 0 := by
      rw [hlastd]
      simp [prevEndD, hee]
    cases hsb : shouldBreakB g done.getLast? st.current st.line_start (wd.start.getD 0)
        (wd.end_.getD 0) with
    | true =>
      rw [segStep_of_break _ _ _ _ hnb hc hsb]
      constructor
      · intro l hlm
        rcases List.mem_append.mp hlm with hin | hin
        · exact lineChunk_mono _ _ _ (hl l hin)
        · have hleq : l = ⟨st.lines.length + 1, st.line_start,
              prevEndD done.getLast? (st.line_start + 1), st.current⟩ := by
            simpa using hin
          subst hleq
          exact ⟨pre, mid, [wd], w1, wn, by rw [hdone], hhead, hwn, hcur, hls, hpe⟩
      · exact Or.inr ⟨done, [wd], wd, rfl, rfl, rfl, rfl⟩
    | false =>
      rw [segStep_of_cont _ _ _ _ hnb hc hsb]
      refine ⟨fun l hlm => lineChunk_mono _ _ _ (hl l hlm), Or.inr ?_⟩
      refine ⟨pre, mid ++ [wd], w1, by rw [hdone, List.append_assoc], ?_, ?_, hls⟩
      · rw [List.head?_append, hhead]
        rfl
      · rw [List.map_append, ← hcur]
        rfl

theorem segRun_chunk (g : SubtitleGenerator) :
    ∀ (rest done : List WordData) (st : SegState),
    (∀ w ∈ done ++ rest, goodWord w = true) →
    (∀ l ∈ st.lines, lineChunk done l) →
    BufOk done st →
    (∀ l ∈ (segRun g rest done.getLast? st).1.lines, lineChunk (done ++ rest) l) ∧
    BufOk (done ++ rest) (segRun g rest done.getLast? st).1 := by
  intro rest
  induction rest with
  | nil =>
    intro done st hg hl hb
    simpa [segRun] using ⟨hl, hb⟩
  | cons wd rest ih =>
    intro done st hg hl hb
    have hgw : goodWord wd = true := hg wd (by simp)
    have hgd : ∀ w ∈ done, goodWord w = true := fun w hw => hg w (by simp [hw])
    obtain ⟨hl', hb'⟩ := segStep_chunk g done wd st hgw hgd hl hb
    have hg' : ∀ w ∈ (done ++ [wd]) ++ rest, goodWord w = true := by
      intro w hw
      apply hg
      simpa [List.append_assoc] using hw
    have hlast : (done ++ [wd]).getLast? = some wd := by
      rw [getLast?_append_right _ _ (by simp)]
      rfl
    have := ih (done ++ [wd]) (segStep g done.getLast? wd st) hg' hl' hb'
    rw [hlast] at this
    simpa [segRun, List.append_assoc] using this

/-- C2 (amended): when every input word has its three keys and non-blank
text, every emitted line covers one consecutive non-empty run of the
input words, its `start` is the first included word's start and its `end`
the last included word's end. -/
theorem segment_line_boundaries (g : SubtitleGenerator) (ws : List WordData)
    (hgood : ∀ w ∈ ws, goodWord w = true) :
    ∀ l ∈ segment_into_lines g ws, lineChunk ws l := by
  cases ws with
  | nil => intro l hl; simp [segment_into_lines] at hl
  | cons w0 ws' =>
    obtain ⟨hlines, hbuf⟩ := segRun_chunk g (w0 :: ws') [] ⟨[], [], 0⟩
      (by simpa using hgood) (fun l hl => absurd hl (List.not_mem_nil l)) (Or.inl rfl)
    simp only [List.nil_append] at hlines hbuf
    intro l hl
    unfold segment_into_lines at hl
    by_cases hc : (segRun g (w0 :: ws') none ⟨[], [], 0⟩).1.current.isEmpty = true
    · rw [if_pos hc] at hl
      exact hlines l hl
    · rw [if_neg hc] at hl
      rcases List.mem_append.mp hl with hin | hin
      · exact hlines l hin
      · have hcur_ne : (segRun g (w0 :: ws') none ⟨[], [], 0⟩).1.current ≠ [] := by
          simpa [List.isEmpty_iff] using hc
        rcases hbuf with hce | ⟨pre, mid, w1, hdone, hhead, hcur, hls⟩
        · exact absurd hce hcur_ne
        have hmidne : mid ≠ [] := by
          intro h0
          rw [h0] at hcur
          exact hcur_ne (by simpa using hcur)
        obtain ⟨wn, hwn⟩ : ∃ wn, mid.getLast? = some wn := by
          cases hm : mid.getLast? with
          | none => exact absurd (List.getLast?_eq_none_iff.mp hm) hmidne
          | some w => exact ⟨w, rfl⟩
        have hr2 : (segRun g (w0 :: ws') none ⟨[], [], 0⟩).2 = some wn := by
          rw [segRun_snd, Option.or_none, hdone, getLast?_append_right _ _ hmidne, hwn]
        have hwnmem : wn ∈ w0 :: ws' := by
          rw [hdone]
          exact List.mem_append_right _ (mem_of_getLast?_eq hwn)
        obtain ⟨-, -, hwne⟩ := goodWord_spec wn (hgood wn hwnmem)
        obtain ⟨e, hee⟩ := Option.isSome_iff_exists.mp hwne
        have hleq : l = ⟨(segRun g (w0 :: ws') none ⟨[], [], 0⟩).1.lines.length + 1,
            (segRun g (w0 :: ws') none ⟨[], [], 0⟩).1.line_start,
            prevEndD (segRun g (w0 :: ws') none ⟨[], [], 0⟩).2
              ((segRun g (w0 :: ws') none ⟨[], [], 0⟩).1.line_start + 1),
            (segRun g (w0 :: ws') none ⟨[], [], 0⟩).1.current⟩ := by
          simpa using hin
        subst hleq
        refine ⟨pre, mid, [], w1, wn, by rw [hdone]; simp, hhead, hwn, hcur, hls, ?_⟩
        rw [hr2]
        simp [prevEndD, hee]

theorem shouldBreakB_false_spec (g : SubtitleGenerator) (prev : Option WordData)
    (current : List String) (line_start start wend : ℚ)
    (h : shouldBreakB g prev current line_start start wend = false) :
    ¬ (g.words_per_line ≤ current.length) ∧ ¬ (g.max_line_duration ≤ wend - line_start) := by
  simp only [shouldBreakB, Bool.or_eq_false_iff, decide_eq_false_iff_not] at h
  exact ⟨h.1.1.2, h.1.2⟩

theorem segStep_c3 (g : SubtitleGenerator) (done : List WordData) (wd : WordData)
    (st : SegState)
    (hwpl : 1 ≤ g.words_per_line)
    (hgw : goodWord wd = true)
    (hinv : C3Inv g done st) :
    C3Inv g (done ++ [wd]) (segStep g done.getLast? wd st) := by
  obtain ⟨hnb, hs, he⟩ := goodWord_spec wd hgw
  obtain ⟨hL, hC, hD⟩ := hinv
  obtain ⟨e', hee'⟩ := Option.isSome_iff_exists.mp he
  by_cases hc : st.current = []
  · rw [segStep_of_first _ _ _ _ hnb hc]
    exact ⟨hL, by simpa using hwpl, by intro h2; simp at h2⟩
  · cases hsb : shouldBreakB g done.getLast? st.current st.line_start (wd.start.getD 0)
        (wd.end_.getD 0) with
    | true =>
      rw [segStep_of_break _ _ _ _ hnb hc hsb]
      refine ⟨?_, by simpa using hwpl, by intro h2; simp at h2⟩
      intro l hlm
      rcases List.mem_append.mp hlm with hin | hin
      · exact hL l hin
      · have hleq : l = ⟨st.lines.length + 1, st.line_start,
            prevEndD done.getLast? (st.line_start + 1), st.current⟩ := by
          simpa using hin
        subst hleq
        refine ⟨hC, ?_⟩
        intro h2
        obtain ⟨wn, e, hwn, hwne, hlt⟩ := hD h2
        simpa [prevEndD, hwn, hwne] using hlt
    | false =>
      rw [segStep_of_cont _ _ _ _ hnb hc hsb]
      obtain ⟨hcount, hdur⟩ := shouldBreakB_false_spec _ _ _ _ _ _ hsb
      refine ⟨hL, ?_, ?_⟩
      · simpa using Nat.succ_le_of_lt (Nat.lt_of_not_le hcount)
      · intro _
        refine ⟨wd, e', by rw [getLast?_append_right _ _ (by simp)]; rfl, hee', ?_⟩
        have hge : wd.end_.getD 0 = e' := by simp [hee']
        rw [hge] at hdur
        exact lt_of_not_le hdur

theorem segRun_c3 (g : SubtitleGenerator) (hwpl : 1 ≤ g.words_per_line) :
    ∀ (rest done : List WordData) (st : SegState),
    (∀ w ∈ rest, goodWord w = true) →
    C3Inv g done st →
    C3Inv g (done ++ rest) (segRun g rest done.getLast? st).1 := by
  intro rest
  induction rest with
  | nil =>
    intro done st _ hinv
    simpa [segRun] using hinv
  | cons wd rest ih =>
    intro done st hg hinv
    have hstep := segStep_c3 g done wd st hwpl (hg wd (by simp)) hinv
    have hlast : (done ++ [wd]).getLast? = some wd := by
      rw [getLast?_append_right _ _ (by simp)]
      rfl
    have := ih (done ++ [wd]) (segStep g done.getLast? wd st)
      (fun w hw => hg w (by simp [hw])) hstep
    rw [hlast] at this
    simpa [segRun, List.append_assoc] using this

/-- C3 (amended): with the spec's configuration constraint
`words_per_line ≥ 1` and every word carrying its keys with non-blank
text, no emitted line holds more than `words_per_line` words, and every
emitted line of at least two words has duration strictly below
`max_line_duration`.  (A single-word line spans exactly its one word, so
its duration is the word's own duration, which no break condition
bounds.) -/
theorem segment_line_limits (g : SubtitleGenerator) (ws : List WordData)
    (hwpl : 1 ≤ g.words_per_line)
    (hgood : ∀ w ∈ ws, goodWord w = true) :
    ∀ l ∈ segment_into_lines g ws,
      l.words.length ≤ g.words_per_line ∧
      (2 ≤ l.words.length → l.end_ - l.start < g.max_line_duration) := by
  cases ws with
  | nil => intro l hl; simp [segment_into_lines] at hl
  | cons w0 ws' =>
    have hinv := segRun_c3 g hwpl (w0 :: ws') [] ⟨[], [], 0⟩ hgood
      ⟨fun l hl => absurd hl (List.not_mem_nil l), Nat.zero_le _,
       by intro h2; simp at h2⟩
    simp only [List.nil_append] at hinv
    obtain ⟨hL, hC, hD⟩ := hinv
    intro l hl
    unfold segment_into_lines at hl
    by_cases hc : (segRun g (w0 :: ws') none ⟨[], [], 0⟩).1.current.isEmpty = true
    · rw [if_pos hc] at hl
      exact hL l hl
    · rw [if_neg hc] at hl
      rcases List.mem_append.mp hl with hin | hin
      · exact hL l hin
      · have hleq : l = ⟨(segRun g (w0 :: ws') none ⟨[], [], 0⟩).1.lines.length + 1,
            (segRun g (w0 :: ws') none ⟨[], [], 0⟩).1.line_start,
            prevEndD (segRun g (w0 :: ws') none ⟨[], [], 0⟩).2
              ((segRun g (w0 :: ws') none ⟨[], [], 0⟩).1.line_start + 1),
            (segRun g (w0 :: ws') none ⟨[], [], 0⟩).1.current⟩ := by
          simpa using hin
        subst hleq
        refine ⟨hC, ?_⟩
        intro h2
        obtain ⟨wn, e, hwn, hwne, hlt⟩ := hD h2
        have hr2 : (segRun g (w0 :: ws') none ⟨[], [], 0⟩).2 = some wn := by
          rw [segRun_snd, Option.or_none, hwn]
        simpa [hr2, prevEndD, hwne] using hlt

/-- Witness for C2 at the concrete input `exTwo`. -/
theorem segment_line_boundaries_witness :
    (∀ w ∈ exTwo, goodWord w = true) ∧
    (∀ l ∈ segment_into_lines cfg0 exTwo, lineChunk exTwo l) :=
  ⟨by decide, segment_line_boundaries cfg0 exTwo (by decide)⟩

/-- Counterexample for C2 as stated: on `exBlank` the first emitted line
holds exactly the word `"a"`, whose `end` is 1, yet the line's `end` is 6
— the end of the skipped blank word standing right before the break. -/
theorem segment_line_end_cex :
    segment_into_lines cfg0 exBlank = [⟨1, 0, 6, ["a"]⟩, ⟨2, 10, 11, ["b"]⟩] ∧
    (∀ wd ∈ exBlank, wordText wd = "a" → wd.end_ = some 1) ∧
    (6 : ℚ) ≠ 1 := by
  refine ⟨by decide, by decide, by norm_num⟩

/-- Witness for C3 at the concrete input `exTwo`. -/
theorem segment_line_limits_witness :
    (1 ≤ cfg0.words_per_line ∧ ∀ w ∈ exTwo, goodWord w = true) ∧
    (∀ l ∈ segment_into_lines cfg0 exTwo,
      l.words.length ≤ cfg0.words_per_line ∧
      (2 ≤ l.words.length → l.end_ - l.start < cfg0.max_line_duration)) :=
  ⟨⟨by decide, by decide⟩, segment_line_limits cfg0 exTwo (by decide) (by decide)⟩

/-- Counterexample for C3 as stated: the single well-formed word of
`exLong` (start 0, end 100) yields one line of duration 100, far beyond
`max_line_duration = 7`. -/
theorem segment_duration_cex :
    segment_into_lines cfg0 exLong = [⟨1, 0, 100, ["a"]⟩] ∧
    (∀ wd ∈ exLong, wd.start.getD 0 ≤ wd.end_.getD 0) ∧
    cfg0.max_line_duration < (100 : ℚ) - 0 := by
  refine ⟨by decide, by decide, by norm_num [cfg0]⟩

theorem segStep_lines_prefix (g : SubtitleGenerator) (prev : Option WordData)
    (wd : WordData) (st : SegState) :
    ∃ e, (segStep g prev wd st).lines = st.lines ++ e := by
  cases h : isBlankWord wd with
  | true => exact ⟨[], by rw [segStep_of_blank _ _ _ _ h]; simp⟩
  | false =>
    by_cases hc : st.current = []
    · exact ⟨[], by rw [segStep_of_first _ _ _ _ h hc]; simp⟩
    · cases hsb : shouldBreakB g prev st.current st.line_start (wd.start.getD 0)
          (wd.end_.getD 0) with
      | true =>
        exact ⟨_, by rw [segStep_of_break _ _ _ _ h hc hsb]⟩
      | false =>
        exact ⟨[], by rw [segStep_of_cont _ _ _ _ h hc hsb]; simp⟩

theorem segRun_lines_prefix (g : SubtitleGenerator) :
    ∀ (rest : List WordData) (prev : Option WordData) (st : SegState),
    ∃ e, (segRun g rest prev st).1.lines = st.lines ++ e := by
  intro rest
  induction rest with
  | nil => intro prev st; exact ⟨[], by simp [segRun]⟩
  | cons wd rest ih =>
    intro prev st
    obtain ⟨e1, he1⟩ := segStep_lines_prefix g prev wd st
    obtain ⟨e2, he2⟩ := ih (some wd) (segStep g prev wd st)
    exact ⟨e1 ++ e2, by simp [segRun, he2, he1]⟩

theorem segRun_append (g : SubtitleGenerator) :
    ∀ (a b : List WordData) (prev : Option WordData) (st : SegState),
    segRun g (a ++ b) prev st
      = segRun g b (segRun g a prev st).2 (segRun g a prev st).1 := by
  intro a
  induction a with
  | nil => intro b prev st; rfl
  | cons wd a ih =>
    intro b prev st
    have hstep : segRun g ((wd :: a) ++ b) prev st
        = segRun g (a ++ b) (some wd) (segStep g prev wd st) := rfl
    rw [hstep, ih]
    rfl

theorem segment_eq_of_ne_nil (g : SubtitleGenerator) (ws : List WordData) (h : ws ≠ []) :
    segment_into_lines g ws
      = (if (segRun g ws none ⟨[], [], 0⟩).1.current.isEmpty then
          (segRun g ws none ⟨[], [], 0⟩).1.lines
        else
          (segRun g ws none ⟨[], [], 0⟩).1.lines
            ++ [⟨(segRun g ws none ⟨[], [], 0⟩).1.lines.length + 1,
                 (segRun g ws none ⟨[], [], 0⟩).1.line_start,
                 prevEndD (segRun g ws none ⟨[], [], 0⟩).2
                   ((segRun g ws none ⟨[], [], 0⟩).1.line_start + 1),
                 (segRun g ws none ⟨[], [], 0⟩).1.current⟩]) := by
  cases ws with
  | nil => exact absurd rfl h
  | cons w ws' => rfl

theorem shouldBreakB_of_pause (g : SubtitleGenerator) (w1 : WordData)
    (current : List String) (line_start start wend : ℚ)
    (hp : g.pause_threshold ≤ start - w1.end_.getD 0) :
    shouldBreakB g (some w1) current line_start start wend = true := by
  simp [shouldBreakB, pauseBreakB, hp]

/-- C4: whenever two consecutive input words are separated by a gap of at
least `pause_threshold` (and the later one is an actual word, not a
skipped blank), the emitted lines break exactly at that boundary: a
proper prefix of the lines carries exactly the non-blank words up to and
including the earlier word.  Moreover the spec's worked example produces
exactly the two stated lines, with texts "see you" and "soon". -/
theorem pause_gap_breaks :
    (∀ (g : SubtitleGenerator) (ws : List WordData) (i : ℕ) (w1 w2 : WordData),
      ws[i]? = some w1 → ws[i+1]? = some w2 →
      isBlankWord w2 = false →
      g.pause_threshold ≤ w2.start.getD 0 - w1.end_.getD 0 →
      ∃ k, k < (segment_into_lines g ws).length ∧
        linesWords ((segment_into_lines g ws).take k) = nonBlankWords (ws.take (i+1))) ∧
    segment_into_lines cfg0 exSeeYouSoon
      = [⟨1, 0, 9/10, ["see", "you"]⟩, ⟨2, 2, 12/5, ["soon"]⟩] ∧
    (segment_into_lines cfg0 exSeeYouSoon).map Line.text = ["see you", "soon"] := by
  constructor
  · intro g ws i w1 w2 h1 h2 hb2 hp
    have htake : ws.take (i+1) = ws.take i ++ [w1] := by
      rw [List.take_succ, h1]
      rfl
    have hdrop : ws.drop (i+1) = w2 :: ws.drop (i+2) := by
      obtain ⟨hn, he⟩ := List.getElem?_eq_some.mp h2
      rw [List.drop_eq_getElem_cons hn, he]
    have hws : ws.take (i+1) ++ ws.drop (i+1) = ws := List.take_append_drop _ _
    have hwsne : ws ≠ [] := by
      intro h0
      rw [h0] at h1
      simp at h1
    have hp1 : (segRun g (ws.take (i+1)) none ⟨[], [], 0⟩).2 = some w1 := by
      rw [segRun_snd, Option.or_none, htake, getLast?_append_right _ _ (by simp)]
      rfl
    have hflat1 : linesWords (segRun g (ws.take (i+1)) none ⟨[], [], 0⟩).1.lines
        ++ (segRun g (ws.take (i+1)) none ⟨[], [], 0⟩).1.current
        = nonBlankWords (ws.take (i+1)) := by
      simpa [linesWords] using segRun_flat g (ws.take (i+1)) none ⟨[], [], 0⟩
    have hrun : segRun g ws none ⟨[], [], 0⟩
        = segRun g (ws.drop (i+2)) (some w2)
            (segStep g (some w1) w2 (segRun g (ws.take (i+1)) none ⟨[], [], 0⟩).1) := by
      conv_lhs => rw [← hws, hdrop]
      rw [segRun_append, hp1]
      rfl
    have hflat2 : linesWords (segStep g (some w1) w2
          (segRun g (ws.take (i+1)) none ⟨[], [], 0⟩).1).lines
        = nonBlankWords (ws.take (i+1)) := by
      by_cases hc : (segRun g (ws.take (i+1)) none ⟨[], [], 0⟩).1.current = []
      · rw [segStep_of_first _ _ _ _ hb2 hc]
        rw [hc, List.append_nil] at hflat1
        exact hflat1
      · rw [segStep_of_break _ _ _ _ hb2 hc
          (shouldBreakB_of_pause g w1 _ _ _ _ hp)]
        rw [← hflat1, linesWords_append]
        simp [linesWords]
    obtain ⟨e, he⟩ := segRun_lines_prefix g (ws.drop (i+2)) (some w2)
      (segStep g (some w1) w2 (segRun g (ws.take (i+1)) none ⟨[], [], 0⟩).1)
    obtain ⟨tail, htail⟩ : ∃ tail, segment_into_lines g ws
        = (segStep g (some w1) w2
            (segRun g (ws.take (i+1)) none ⟨[], [], 0⟩).1).lines ++ tail := by
      rw [segment_eq_of_ne_nil g ws hwsne]
      by_cases hc : (segRun g ws none ⟨[], [], 0⟩).1.current.isEmpty = true
      · rw [if_pos hc, hrun, he]
        exact ⟨e, rfl⟩
      · rw [if_neg hc, hrun, he, List.append_assoc]
        exact ⟨_, rfl⟩
    refine ⟨(segStep g (some w1) w2
        (segRun g (ws.take (i+1)) none ⟨[], [], 0⟩).1).lines.length, ?_, ?_⟩
    · have hflatL := segment_flat g ws
      have hsplit : nonBlankWords ws
          = nonBlankWords (ws.take (i+1))
            ++ (wordText w2 :: nonBlankWords (ws.drop (i+2))) := by
        conv_lhs => rw [← hws, hdrop]
        rw [nonBlankWords_append, nonBlankWords_cons, hb2]
        simp
      have h5 : linesWords (segStep g (some w1) w2
            (segRun g (ws.take (i+1)) none ⟨[], [], 0⟩).1).lines ++ linesWords tail
          = nonBlankWords ws := by
        rw [← linesWords_append, ← htail]
        exact hflatL
      rw [hflat2, hsplit] at h5
      have h6 : linesWords tail = wordText w2 :: nonBlankWords (ws.drop (i+2)) :=
        List.append_cancel_left h5
      have h7 : tail ≠ [] := by
        intro h0
        rw [h0] at h6
        simp [linesWords] at h6
      rw [htail, List.length_append]
      have h8 : 0 < tail.length := List.length_pos.mpr h7
      omega
    · rw [htail, List.take_left, hflat2]
  · exact ⟨by decide, by decide⟩

theorem shouldBreakB_of_count (g : SubtitleGenerator) (prev : Option WordData)
    (current : List String) (line_start start wend : ℚ)
    (h : g.words_per_line ≤ current.length) :
    shouldBreakB g prev current line_start start wend = true := by
  simp [shouldBreakB, h]

theorem shouldBreakB_eq_false (g : SubtitleGenerator) (prev : Option WordData)
    (current : List String) (line_start start wend : ℚ)
    (h1 : pauseBreakB g prev start = false)
    (h2 : ¬ g.words_per_line ≤ current.length)
    (h3 : ¬ g.max_line_duration ≤ wend - line_start)
    (h4 : punctBreakB current = false) :
    shouldBreakB g prev current line_start start wend = false := by
  simp [shouldBreakB, h1, h2, h3, h4]

theorem segStep_c5 (g : SubtitleGenerator) (ws done rest : List WordData) (wd : WordData)
    (st : SegState)
    (hwpl : g.words_per_line = 2)
    (hws : ws = done ++ wd :: rest)
    (hgap : List.Chain' (fun p q => q.start.getD 0 - p.end_.getD 0 < g.pause_threshold) ws)
    (hpunct : ∀ w ∈ ws, endsBreakPunct (wordText w) = false)
    (hspan : ∀ p ∈ ws, ∀ q ∈ ws, q.end_.getD 0 - p.start.getD 0 < g.max_line_duration)
    (hinv : C5Inv ws done st) :
    C5Inv ws (done ++ [wd]) (segStep g done.getLast? wd st) := by
  obtain ⟨hL, hC, hB, hS⟩ := hinv
  have hwdmem : wd ∈ ws := by
    rw [hws]
    exact List.mem_append_right _ (List.mem_cons_self _ _)
  cases hbl : isBlankWord wd with
  | true =>
    rw [segStep_of_blank _ _ _ _ hbl]
    exact ⟨hL, hC, fun hne => ⟨by simp, (hB hne).2⟩, hS⟩
  | false =>
    by_cases hc : st.current = []
    · rw [segStep_of_first _ _ _ _ hbl hc]
      refine ⟨hL, by simp, fun _ => ⟨by simp, wd, hwdmem, rfl⟩, ?_⟩
      intro s hs
      have : s = wordText wd := by simpa using hs
      exact ⟨wd, hwdmem, this⟩
    · obtain ⟨hdne, w0, hw0mem, hls⟩ := hB hc
      have hlen_pos : 0 < st.current.length := List.length_pos.mpr hc
      have hlen12 : st.current.length = 1 ∨ st.current.length = 2 := by omega
      rcases hlen12 with hlen | hlen
      · -- one buffered word: no break condition can fire
        have hpause : pauseBreakB g done.getLast? (wd.start.getD 0) = false := by
          obtain ⟨p, hp⟩ : ∃ p, done.getLast? = some p := by
            cases hd : done.getLast? with
            | none => exact absurd (List.getLast?_eq_none_iff.mp hd) hdne
            | some p => exact ⟨p, rfl⟩
          have hj := (List.chain'_append.mp (hws ▸ hgap)).2.2
          have hrel : wd.start.getD 0 - p.end_.getD 0 < g.pause_threshold := by
            exact hj p (by rw [hp]; rfl) wd rfl
          simp [pauseBreakB, hp, not_le.mpr hrel]
        have hcount : ¬ g.words_per_line ≤ st.current.length := by
          rw [hwpl, hlen]
          omega
        have hdur : ¬ g.max_line_duration ≤ wd.end_.getD 0 - st.line_start := by
          rw [hls]
          exact not_le.mpr (hspan w0 hw0mem wd hwdmem)
        have hpn : punctBreakB st.current = false := by
          obtain ⟨s, hsl⟩ : ∃ s, st.current.getLast? = some s := by
            cases hd : st.current.getLast? with
            | none => exact absurd (List.getLast?_eq_none_iff.mp hd) hc
            | some s => exact ⟨s, rfl⟩
          obtain ⟨w, hwmem, hsw⟩ := hS s (mem_of_getLast?_eq hsl)
          simp [punctBreakB, hsl, hsw, hpunct w hwmem]
        rw [segStep_of_cont _ _ _ _ hbl hc
          (shouldBreakB_eq_false _ _ _ _ _ _ hpause hcount hdur hpn)]
        refine ⟨hL, by simp [hlen], fun _ => ⟨by simp, w0, hw0mem, hls⟩, ?_⟩
        intro s hs
        rcases List.mem_append.mp hs with hin | hin
        · exact hS s hin
        · exact ⟨wd, hwdmem, by simpa using hin⟩
      · -- two buffered words: the count condition forces the break
        rw [segStep_of_break _ _ _ _ hbl hc
          (shouldBreakB_of_count _ _ _ _ _ _ (by rw [hwpl, hlen]))]
        refine ⟨?_, by simp, fun _ => ⟨by simp, wd, hwdmem, rfl⟩, ?_⟩
        · intro l hlm
          rcases List.mem_append.mp hlm with hin | hin
          · exact hL l hin
          · have : l = ⟨st.lines.length + 1, st.line_start,
                prevEndD done.getLast? (st.line_start + 1), st.current⟩ := by
              simpa using hin
            rw [this]
            exact hlen
        · intro s hs
          exact ⟨wd, hwdmem, by simpa using hs⟩

theorem segRun_c5 (g : SubtitleGenerator) (ws : List WordData)
    (hwpl : g.words_per_line = 2)
    (hgap : List.Chain' (fun p q => q.start.getD 0 - p.end_.getD 0 < g.pause_threshold) ws)
    (hpunct : ∀ w ∈ ws, endsBreakPunct (wordText w) = false)
    (hspan : ∀ p ∈ ws, ∀ q ∈ ws, q.end_.getD 0 - p.start.getD 0 < g.max_line_duration) :
    ∀ (rest done : List WordData) (st : SegState),
    ws = done ++ rest → C5Inv ws done st →
    C5Inv ws (done ++ rest) (segRun g rest done.getLast? st).1 := by
  intro rest
  induction rest with
  | nil =>
    intro done st _ hinv
    simpa [segRun] using hinv
  | cons wd rest ih =>
    intro done st hws hinv
    have hstep := segStep_c5 g ws done rest wd st hwpl hws hgap hpunct hspan hinv
    have hlast : (done ++ [wd]).getLast? = some wd := by
      rw [getLast?_append_right _ _ (by simp)]
      rfl
    have := ih (done ++ [wd]) (segStep g done.getLast? wd st)
      (by rw [hws, List.append_assoc]; rfl) hstep
    rw [hlast] at this
    simpa [segRun, List.append_assoc] using this

/-- C5 (amended): with `words_per_line = 2`, every inter-word gap below
`pause_threshold`, no word text ending in sentence punctuation, and the
span from any word's start to any word's end below `max_line_duration`,
every emitted line except possibly the last holds exactly two words. -/
theorem segment_two_word_lines (g : SubtitleGenerator) (ws : List WordData)
    (hwpl : g.words_per_line = 2)
    (hgap : List.Chain' (fun p q => q.start.getD 0 - p.end_.getD 0 < g.pause_threshold) ws)
    (hpunct : ∀ w ∈ ws, endsBreakPunct (wordText w) = false)
    (hspan : ∀ p ∈ ws, ∀ q ∈ ws, q.end_.getD 0 - p.start.getD 0 < g.max_line_duration) :
    ∀ l ∈ (segment_into_lines g ws).dropLast, l.words.length = 2 := by
  cases hwsc : ws with
  | nil => intro l hl; simp [segment_into_lines] at hl
  | cons w0 ws' =>
    rw [← hwsc]
    have hrun := segRun_c5 g ws hwpl hgap hpunct hspan ws [] ⟨[], [], 0⟩ rfl
      ⟨fun l hl => absurd hl (List.not_mem_nil l), by simp,
       fun hne => absurd rfl hne, fun s hs => absurd hs (List.not_mem_nil s)⟩
    obtain ⟨hL, -, -, -⟩ := hrun
    have hne : ws ≠ [] := by rw [hwsc]; simp
    intro l hl
    rw [segment_eq_of_ne_nil g ws hne] at hl
    by_cases hc : (segRun g ws none ⟨[], [], 0⟩).1.current.isEmpty = true
    · rw [if_pos hc] at hl
      exact hL l (List.dropLast_subset _ hl)
    · rw [if_neg hc, List.dropLast_concat] at hl
      exact hL l hl

/-- Witness for C5 at the concrete input `exGap3`. -/
theorem segment_two_word_lines_witness :
    (cfg2.words_per_line = 2 ∧
     List.Chain' (fun p q => q.start.getD 0 - p.end_.getD 0 < cfg2.pause_threshold) exGap3 ∧
     (∀ w ∈ exGap3, endsBreakPunct (wordText w) = false) ∧
     (∀ p ∈ exGap3, ∀ q ∈ exGap3, q.end_.getD 0 - p.start.getD 0 < cfg2.max_line_duration)) ∧
    (∀ l ∈ (segment_into_lines cfg2 exGap3).dropLast, l.words.length = 2) :=
  ⟨⟨rfl,
    by simp only [exGap3, List.chain'_cons, List.chain'_singleton]; exact ⟨by decide, by decide⟩,
    by decide, by decide⟩,
   segment_two_word_lines cfg2 exGap3 rfl
    (by simp only [exGap3, List.chain'_cons, List.chain'_singleton]; exact ⟨by decide, by decide⟩)
    (by decide) (by decide)⟩

/-- Counterexample for C5 as stated: on `exDur` every inter-word gap is 0
(below the 0.7 threshold), yet with `words_per_line = 2` the first
emitted line holds a single word — the max-duration condition broke the
line before the two-word count was reached. -/
theorem segment_two_word_lines_cex :
    List.Chain' (fun p q => q.start.getD 0 - p.end_.getD 0 < cfg2.pause_threshold) exDur ∧
    ((segment_into_lines cfg2 exDur).dropLast.map (fun l => l.words.length)) = [1] :=
  ⟨by simp only [exDur, List.chain'_cons, List.chain'_singleton, and_true]; decide,
   by decide⟩

/-- Witness for C4 at the pause between `you` and `soon` of the worked
example. -/
theorem pause_gap_breaks_witness :
    ∃ k, k < (segment_into_lines cfg0 exSeeYouSoon).length ∧
      linesWords ((segment_into_lines cfg0 exSeeYouSoon).take k)
        = nonBlankWords (exSeeYouSoon.take 2) :=
  pause_gap_breaks.1 cfg0 exSeeYouSoon 1
    ⟨some "you", some (3/5), some (9/10)⟩ ⟨some "soon", some 2, some (12/5)⟩
    (by decide) (by decide) (by decide) (by decide)

/-! ### The timestamp formatter -/

theorem pyTrunc_of_nonneg (q : ℚ) (h : 0 ≤ q) : pyTrunc q = ⌊q⌋ := by
  simp [pyTrunc, not_lt.mpr h]

theorem roundHalfEven_nonneg (q : ℚ) (h : 0 ≤ q) : 0 ≤ roundHalfEven q := by
  have hf : 0 ≤ ⌊q⌋ := Int.floor_nonneg.mpr h
  simp only [roundHalfEven]
  split_ifs <;> omega

theorem timedeltaTotalSeconds_nonneg (s : ℚ) (h : 0 ≤ s) :
    0 ≤ timedeltaTotalSeconds s := by
  have h1 : 0 ≤ roundHalfEven (s * 1000000) :=
    roundHalfEven_nonneg _ (by positivity)
  unfold timedeltaTotalSeconds
  have h2 : (0 : ℚ) ≤ (roundHalfEven (s * 1000000) : ℚ) := by exact_mod_cast h1
  positivity

theorem millisFloor_nonneg (s : ℚ) : 0 ≤ ⌊(s - ⌊s⌋) * 1000⌋ := by
  apply Int.floor_nonneg.mpr
  have : 0 ≤ s - ⌊s⌋ := by
    have := Int.floor_le s
    linarith
  positivity

theorem millisFloor_lt (s : ℚ) : ⌊(s - ⌊s⌋) * 1000⌋ < 1000 := by
  apply Int.floor_lt.mpr
  have h1 : s - ⌊s⌋ < 1 := by
    have := Int.lt_floor_add_one s
    linarith
  push_cast
  nlinarith

/-- C6: for every non-negative input the two timestamp formatters return
`HH:MM:SS<sep>mmm` built from the same zero-padded hour, minute and
second fields (minutes and seconds below 60) with milliseconds equal to
the floor of the fractional part times 1000, the two differing only in
the separator; and 3725.4 seconds formats as the two stated strings. -/
theorem timestamp_format :
    (∀ s : ℚ, 0 ≤ s →
      ∃ H M S : ℤ, 0 ≤ H ∧ 0 ≤ M ∧ M < 60 ∧ 0 ≤ S ∧ S < 60 ∧
        0 ≤ ⌊(s - ⌊s⌋) * 1000⌋ ∧ ⌊(s - ⌊s⌋) * 1000⌋ < 1000 ∧
        format_timestamp_srt s
          = pyFmtZero 2 H ++ ":" ++ pyFmtZero 2 M ++ ":" ++ pyFmtZero 2 S
            ++ "," ++ pyFmtZero 3 ⌊(s - ⌊s⌋) * 1000⌋ ∧
        format_timestamp_vtt s
          = pyFmtZero 2 H ++ ":" ++ pyFmtZero 2 M ++ ":" ++ pyFmtZero 2 S
            ++ "." ++ pyFmtZero 3 ⌊(s - ⌊s⌋) * 1000⌋) ∧
    format_timestamp_srt (37254/10) = "01:02:05,400" ∧
    format_timestamp_vtt (37254/10) = "01:02:05.400" := by
  refine ⟨?_, by decide, by decide⟩
  intro s hs
  have hT : 0 ≤ pyTrunc (timedeltaTotalSeconds s) := by
    rw [pyTrunc_of_nonneg _ (timedeltaTotalSeconds_nonneg s hs)]
    exact Int.floor_nonneg.mpr (timedeltaTotalSeconds_nonneg s hs)
  have hmillis : pyTrunc ((s - (pyTrunc s : ℚ)) * 1000) = ⌊(s - ⌊s⌋) * 1000⌋ := by
    rw [pyTrunc_of_nonneg s hs]
    apply pyTrunc_of_nonneg
    have : 0 ≤ s - ⌊s⌋ := by
      have := Int.floor_le s
      linarith
    positivity
  refine ⟨(pyTrunc (timedeltaTotalSeconds s)).fdiv 3600,
          ((pyTrunc (timedeltaTotalSeconds s)).fmod 3600).fdiv 60,
          (pyTrunc (timedeltaTotalSeconds s)).fmod 60,
          ?_, ?_, ?_, ?_, ?_,
          millisFloor_nonneg s, millisFloor_lt s, ?_, ?_⟩
  · rw [Int.fdiv_eq_ediv _ (by norm_num)]
    exact Int.ediv_nonneg hT (by norm_num)
  · rw [Int.fdiv_eq_ediv _ (by norm_num), Int.fmod_eq_emod _ (by norm_num)]
    exact Int.ediv_nonneg (Int.emod_nonneg _ (by norm_num)) (by norm_num)
  · rw [Int.fdiv_eq_ediv _ (by norm_num), Int.fmod_eq_emod _ (by norm_num)]
    exact (Int.ediv_lt_iff_lt_mul (by norm_num)).mpr
      (by have := Int.emod_lt_of_pos (pyTrunc (timedeltaTotalSeconds s)) (b := 3600)
            (by norm_num)
          omega)
  · rw [Int.fmod_eq_emod _ (by norm_num)]
    exact Int.emod_nonneg _ (by norm_num)
  · rw [Int.fmod_eq_emod _ (by norm_num)]
    exact Int.emod_lt_of_pos _ (by norm_num)
  · simp only [format_timestamp_srt, hmillis]
  · simp only [format_timestamp_vtt, hmillis]

/-- Witness for C6 at 3725.4 seconds. -/
theorem timestamp_format_witness :
    ∃ H M S : ℤ, 0 ≤ H ∧ 0 ≤ M ∧ M < 60 ∧ 0 ≤ S ∧ S < 60 ∧
      0 ≤ ⌊((37254/10 : ℚ) - ⌊(37254/10 : ℚ)⌋) * 1000⌋ ∧
      ⌊((37254/10 : ℚ) - ⌊(37254/10 : ℚ)⌋) * 1000⌋ < 1000 ∧
      format_timestamp_srt (37254/10)
        = pyFmtZero 2 H ++ ":" ++ pyFmtZero 2 M ++ ":" ++ pyFmtZero 2 S
          ++ "," ++ pyFmtZero 3 ⌊((37254/10 : ℚ) - ⌊(37254/10 : ℚ)⌋) * 1000⌋ ∧
      format_timestamp_vtt (37254/10)
        = pyFmtZero 2 H ++ ":" ++ pyFmtZero 2 M ++ ":" ++ pyFmtZero 2 S
          ++ "." ++ pyFmtZero 3 ⌊((37254/10 : ℚ) - ⌊(37254/10 : ℚ)⌋) * 1000⌋ :=
  timestamp_format.1 (37254/10) (by norm_num)

/-! ### The artifact emitter and the job flows -/

/-- C7: whenever segmentation yields no lines — in particular on empty
word input — `generate_all` reports failure with the stated error and
performs no file write at all. -/
theorem generate_all_empty_fails :
    (∀ (g : SubtitleGenerator) (ws : List WordData) (dir base : String)
       (md : Option (List (String × MVal))),
      segment_into_lines g ws = [] →
      (generate_all g ws dir base md).success = false ∧
      (generate_all g ws dir base md).writes = [] ∧
      (generate_all g ws dir base md).error
        = some "No lines generated from transcription") ∧
    (∀ (g : SubtitleGenerator) (dir base : String) (md : Option (List (String × MVal))),
      segment_into_lines g [] = [] ∧
      (generate_all g [] dir base md).success = false ∧
      (generate_all g [] dir base md).writes = []) := by
  constructor
  · intro g ws dir base md h
    refine ⟨?_, ?_, ?_⟩ <;> simp [generate_all, h]
  · intro g dir base md
    refine ⟨rfl, ?_, ?_⟩ <;> simp [generate_all, segment_into_lines]

/-- Witness for C7 at empty input. -/
theorem generate_all_empty_fails_witness :
    (generate_all cfg0 [] "subtitles" "s1" none).success = false ∧
    (generate_all cfg0 [] "subtitles" "s1" none).writes = [] ∧
    (generate_all cfg0 [] "subtitles" "s1" none).error
      = some "No lines generated from transcription" :=
  generate_all_empty_fails.1 cfg0 [] "subtitles" "s1" none rfl

/-- C8 (amended): when the transcode stage fails, both routes mark the
job failed with the conversion error recorded and never reach the
recognition or segmentation stage; the URL route removes the downloaded
input artifact, but the direct-upload route removes nothing — the saved
upload stays behind. -/
theorem transcode_failure_flow (g : SubtitleGenerator) (conv : ConvertResult)
    (tr : TranscribeResult) (up wav dir sid : String)
    (md : Option (List (String × MVal)))
    (h : conv.success = false) :
    ((transcribe_from_url_flow g conv tr up wav dir sid md).status = "failed" ∧
     (transcribe_from_url_flow g conv tr up wav dir sid md).error_message
       = some (conv.error.getD "Conversion failed") ∧
     (transcribe_from_url_flow g conv tr up wav dir sid md).recognized = false ∧
     (transcribe_from_url_flow g conv tr up wav dir sid md).segmented = false ∧
     up ∈ (transcribe_from_url_flow g conv tr up wav dir sid md).cleaned) ∧
    ((transcribe_upload_flow g conv tr up wav dir sid md).status = "failed" ∧
     (transcribe_upload_flow g conv tr up wav dir sid md).error_message
       = some (conv.error.getD "Conversion failed") ∧
     (transcribe_upload_flow g conv tr up wav dir sid md).recognized = false ∧
     (transcribe_upload_flow g conv tr up wav dir sid md).segmented = false ∧
     (transcribe_upload_flow g conv tr up wav dir sid md).cleaned = []) := by
  constructor <;>
    refine ⟨?_, ?_, ?_, ?_, ?_⟩ <;>
      simp [transcribe_from_url_flow, transcribe_upload_flow, h]

/-- Witness for C8 at a concrete failing conversion. -/
theorem transcode_failure_flow_witness :
    ((transcribe_from_url_flow cfg0 ⟨false, some "boom", none⟩ ⟨true, none, [], none⟩
        "uploads/f1.mp3" "processed/f1.wav" "subtitles" "s1" none).status = "failed" ∧
     (transcribe_from_url_flow cfg0 ⟨false, some "boom", none⟩ ⟨true, none, [], none⟩
        "uploads/f1.mp3" "processed/f1.wav" "subtitles" "s1" none).error_message
       = some ((some "boom").getD "Conversion failed") ∧
     (transcribe_from_url_flow cfg0 ⟨false, some "boom", none⟩ ⟨true, none, [], none⟩
        "uploads/f1.mp3" "processed/f1.wav" "subtitles" "s1" none).recognized = false ∧
     (transcribe_from_url_flow cfg0 ⟨false, some "boom", none⟩ ⟨true, none, [], none⟩
        "uploads/f1.mp3" "processed/f1.wav" "subtitles" "s1" none).segmented = false ∧
     "uploads/f1.mp3" ∈ (transcribe_from_url_flow cfg0 ⟨false, some "boom", none⟩
        ⟨true, none, [], none⟩
        "uploads/f1.mp3" "processed/f1.wav" "subtitles" "s1" none).cleaned) ∧
    ((transcribe_upload_flow cfg0 ⟨false, some "boom", none⟩ ⟨true, none, [], none⟩
        "uploads/f1.mp3" "processed/f1.wav" "subtitles" "s1" none).status = "failed" ∧
     (transcribe_upload_flow cfg0 ⟨false, some "boom", none⟩ ⟨true, none, [], none⟩
        "uploads/f1.mp3" "processed/f1.wav" "subtitles" "s1" none).error_message
       = some ((some "boom").getD "Conversion failed") ∧
     (transcribe_upload_flow cfg0 ⟨false, some "boom", none⟩ ⟨true, none, [], none⟩
        "uploads/f1.mp3" "processed/f1.wav" "subtitles" "s1" none).recognized = false ∧
     (transcribe_upload_flow cfg0 ⟨false, some "boom", none⟩ ⟨true, none, [], none⟩
        "uploads/f1.mp3" "processed/f1.wav" "subtitles" "s1" none).segmented = false ∧
     (transcribe_upload_flow cfg0 ⟨false, some "boom", none⟩ ⟨true, none, [], none⟩
        "uploads/f1.mp3" "processed/f1.wav" "subtitles" "s1" none).cleaned = []) :=
  transcode_failure_flow cfg0 ⟨false, some "boom", none⟩ ⟨true, none, [], none⟩
    "uploads/f1.mp3" "processed/f1.wav" "subtitles" "s1" none rfl

/-- Counterexample for C8 as stated: in the direct-upload route a
transcode failure leaves the saved upload in place — no path at all is
passed to cleanup — although the job does end failed without reaching
recognition. -/
theorem transcode_failure_cleanup_cex :
    (transcribe_upload_flow cfg0 ⟨false, some "boom", none⟩ ⟨true, none, [], none⟩
        "uploads/f1.mp3" "processed/f1.wav" "subtitles" "s1" none).status = "failed" ∧
    (transcribe_upload_flow cfg0 ⟨false, some "boom", none⟩ ⟨true, none, [], none⟩
        "uploads/f1.mp3" "processed/f1.wav" "subtitles" "s1" none).recognized = false ∧
    (transcribe_upload_flow cfg0 ⟨false, some "boom", none⟩ ⟨true, none, [], none⟩
        "uploads/f1.mp3" "processed/f1.wav" "subtitles" "s1" none).cleaned = [] := by
  refine ⟨?_, ?_, ?_⟩ <;> decide

theorem lookup_map_override (base extra : List (String × MVal)) (k : String) :
    List.lookup k (base.map (fun kv => (kv.1, (List.lookup kv.1 extra).getD kv.2)))
      = (List.lookup k base).map (fun v => (List.lookup k extra).getD v) := by
  induction base with
  | nil => rfl
  | cons kv base ih =>
    by_cases hk : k = kv.1
    · simp [List.lookup, hk]
    · simp [List.lookup, beq_false_of_ne hk, ih]

theorem lookup_filter_new (base extra : List (String × MVal)) (k : String)
    (h : List.lookup k base = none) :
    List.lookup k (extra.filter (fun kv => (List.lookup kv.1 base).isNone))
      = List.lookup k extra := by
  induction extra with
  | nil => rfl
  | cons kv extra ih =>
    by_cases hk : k = kv.1
    · have hkeep : (List.lookup kv.1 base).isNone = true := by
        rw [← hk, h]
        rfl
      simp [List.filter_cons, hkeep, List.lookup, hk]
    · by_cases hkeep : (List.lookup kv.1 base).isNone = true
      · simp [List.filter_cons, hkeep, List.lookup, beq_false_of_ne hk, ih]
      · simp [List.filter_cons, hkeep, List.lookup, beq_false_of_ne hk, ih]

theorem lookup_append (a b : List (String × MVal)) (k : String) :
    List.lookup k (a ++ b) = (List.lookup k a).or (List.lookup k b) := by
  induction a with
  | nil => simp [List.lookup, Option.or]
  | cons kv a ih =>
    by_cases hk : k = kv.1
    · simp [List.lookup, hk, Option.or]
    · simp [List.lookup, beq_false_of_ne hk, ih]

theorem lookup_pyDictMerge (base extra : List (String × MVal)) (k : String) :
    List.lookup k (pyDictMerge base extra)
      = (List.lookup k extra).or (List.lookup k base) := by
  rw [pyDictMerge, lookup_append, lookup_map_override]
  cases hb : List.lookup k base with
  | some v =>
    cases he : List.lookup k extra <;> simp [Option.or, Option.getD]
  | none =>
    rw [lookup_filter_new _ _ _ hb]
    cases he : List.lookup k extra <;> simp [Option.or]

/-- C9: in the JSON document's metadata mapping, a key always resolves to
the caller's value when the caller supplied one and to the computed entry
otherwise — in particular a caller-supplied `total_lines`, `total_words`
or `duration` replaces the computed value, and the computed values
survive only for keys the caller's metadata does not contain. -/
theorem generate_json_metadata (lines : List Line) (words : List WordData)
    (md : List (String × MVal)) (k : String) :
    List.lookup k (generate_json lines words (some md)).metadata
      = (List.lookup k md).or (List.lookup k (computedMetadata lines words)) := by
  simp [generate_json, lookup_pyDictMerge]

/-! ### Totality of the segmentation over arbitrary word dicts -/

theorem str_data_ne_nil (s : String) (h : s ≠ "") : s.data ≠ [] := by
  intro h0
  apply h
  cases s with
  | mk d =>
    have hd : d = [] := h0
    rw [hd]

theorem segStepChecked_eq (g : SubtitleGenerator) (prev : Option WordData) (wd : WordData)
    (st : SegState) :
    segStepChecked g prev wd st = some (segStep g prev wd st) := by
  unfold segStepChecked segStep
  by_cases hb : pyStrip (wd.word.getD "") = ""
  · simp [hb]
  · simp only [if_neg hb]
    by_cases hc : st.current.isEmpty = true
    · simp [hc]
    · simp only [hc, Bool.false_eq_true, if_false]
      cases hgl : st.current.getLast? with
      | none =>
        have hpb : punctBreakB st.current = false := by
          rw [punctBreakB, hgl]
        simp only [shouldBreakB, hpb]
        split_ifs <;> rfl
      | some pw =>
        by_cases hpw : pw = ""
        · have hpb : punctBreakB st.current = false := by
            rw [punctBreakB, hgl, hpw]
            rfl
          simp only [shouldBreakB, hpb, hpw, if_pos]
          split_ifs <;> rfl
        · obtain ⟨c, hcl⟩ : ∃ c, pw.data.getLast? = some c := by
            cases hm : pw.data.getLast? with
            | none => exact absurd (List.getLast?_eq_none_iff.mp hm) (str_data_ne_nil pw hpw)
            | some c => exact ⟨c, rfl⟩
          have hpb : punctBreakB st.current = (c = '.' || c = '!' || c = '?') := by
            have h1 : punctBreakB st.current = endsBreakPunct pw := by
              rw [punctBreakB, hgl]
            have h2 : endsBreakPunct pw = (c = '.' || c = '!' || c = '?') := by
              unfold endsBreakPunct
              rw [hcl]
            rw [h1, h2]
          simp only [shouldBreakB, hpb, if_neg hpw, hcl]
          split_ifs <;> rfl

theorem segRunChecked_eq (g : SubtitleGenerator) :
    ∀ (rest : List WordData) (prev : Option WordData) (st : SegState),
    segRunChecked g rest prev st = some (segRun g rest prev st) := by
  intro rest
  induction rest with
  | nil => intro prev st; rfl
  | cons wd rest ih =>
    intro prev st
    have hstep : segRunChecked g (wd :: rest) prev st
        = (match segStepChecked g prev wd st with
           | some st' => segRunChecked g rest (some wd) st'
           | none => none) := rfl
    rw [hstep, segStepChecked_eq]
    exact ih (some wd) (segStep g prev wd st)

/-- C10 (amended): the checked embedding of `segment_into_lines` — in
which every partial operation of the source (the `prev_word[-1]`
subscript and the final `words[-1]` read) fails explicitly instead of
being totalized — never fails and agrees with the total embedding on
every input, missing keys and blank words included: the source's guards
make the function total, a dict with no `word` key reading as blank. -/
theorem segment_checked_total (g : SubtitleGenerator) (ws : List WordData) :
    segment_into_lines_checked g ws = some (segment_into_lines g ws) := by
  cases ws with
  | nil => rfl
  | cons w ws' =>
    unfold segment_into_lines_checked segment_into_lines
    rw [segRunChecked_eq]
    by_cases hc : (segRun g (w :: ws') none ⟨[], [], 0⟩).1.current.isEmpty = true
    · simp [hc]
    · have hsnd : (segRun g (w :: ws') none ⟨[], [], 0⟩).2 = (w :: ws').getLast? := by
        rw [segRun_snd, Option.or_none]
      obtain ⟨p, hp⟩ : ∃ p, (w :: ws').getLast? = some p := by
        cases hm : (w :: ws').getLast? with
        | none => exact absurd (List.getLast?_eq_none_iff.mp hm) (by simp)
        | some p => exact ⟨p, rfl⟩
      simp [hc, hsnd, hp]

/-- Counterexample for C10 as stated: if missing `start`/`end` keys
simply defaulted to 0, filling them with 0 would not change the output;
but on `exMissing` (first word has no `end`) the first line's end is
`line_start + 1 = 1` while the zero-filled input gives 0. -/
theorem segment_defaults_cex :
    segment_into_lines cfg0 exMissing = [⟨1, 0, 1, ["a"]⟩, ⟨2, 5, 6, ["b"]⟩] ∧
    segment_into_lines cfg0 (exMissing.map fillDefaults)
      = [⟨1, 0, 0, ["a"]⟩, ⟨2, 5, 6, ["b"]⟩] ∧
    segment_into_lines cfg0 exMissing
      ≠ segment_into_lines cfg0 (exMissing.map fillDefaults) := by
  refine ⟨by decide, by decide, by decide⟩
